import Mathlib

/-!
Verification of the YouTube-process backend (python-fastapi) against its
natural-language specification.  The Python sources are shallowly embedded:
pure functions become Lean functions on `String` / `List Char`, the mutable
chat-memory store becomes explicit state passing, and `json.loads` is
modelled by a total fuel-indexed parser over a JSON value type.
-/

namespace YTP

/-- JSON values as produced by `json.loads`.  Numeric literals are modelled
for integers (the analysed payloads carry their numbers inside strings). -/
inductive JVal where
  | jnull : JVal
  | jbool : Bool → JVal
  | jnum : Int → JVal
  | jstr : String → JVal
  | jarr : List JVal → JVal
  | jobj : List (String × JVal) → JVal

mutual

/-- Structural boolean equality on JSON values (Python `==` on parsed data). -/
def beqJ : JVal → JVal → Bool
  | .jnull, .jnull => true
  | .jbool a, .jbool b => a == b
  | .jnum a, .jnum b => a == b
  | .jstr a, .jstr b => a == b
  | .jarr a, .jarr b => beqL a b
  | .jobj a, .jobj b => beqF a b
  | _, _ => false

/-- Elementwise equality of value lists. -/
def beqL : List JVal → List JVal → Bool
  | [], [] => true
  | x :: xs, y :: ys => beqJ x y && beqL xs ys
  | _, _ => false

/-- Elementwise equality of member lists. -/
def beqF : List (String × JVal) → List (String × JVal) → Bool
  | [], [] => true
  | (k1, v1) :: xs, (k2, v2) :: ys => k1 == k2 && beqJ v1 v2 && beqF xs ys
  | _, _ => false

end

mutual

theorem beqJ_refl : ∀ a, beqJ a a = true
  | .jnull => rfl
  | .jbool a => by simp [beqJ]
  | .jnum a => by simp [beqJ]
  | .jstr a => by simp [beqJ]
  | .jarr a => by simp [beqJ, beqL_refl a]
  | .jobj a => by simp [beqJ, beqF_refl a]

theorem beqL_refl : ∀ l, beqL l l = true
  | [] => rfl
  | x :: xs => by simp [beqL, beqJ_refl x, beqL_refl xs]

theorem beqF_refl : ∀ l, beqF l l = true
  | [] => rfl
  | (k, v) :: xs => by simp [beqF, beqJ_refl v, beqF_refl xs]

end

mutual

theorem beqJ_eq : ∀ a b, beqJ a b = true → a = b
  | .jnull, .jnull, _ => rfl
  | .jnull, .jbool _, h => by simp [beqJ] at h
  | .jnull, .jnum _, h => by simp [beqJ] at h
  | .jnull, .jstr _, h => by simp [beqJ] at h
  | .jnull, .jarr _, h => by simp [beqJ] at h
  | .jnull, .jobj _, h => by simp [beqJ] at h
  | .jbool _, .jnull, h => by simp [beqJ] at h
  | .jbool a, .jbool b, h => by simp [beqJ] at h; simp [h]
  | .jbool _, .jnum _, h => by simp [beqJ] at h
  | .jbool _, .jstr _, h => by simp [beqJ] at h
  | .jbool _, .jarr _, h => by simp [beqJ] at h
  | .jbool _, .jobj _, h => by simp [beqJ] at h
  | .jnum _, .jnull, h => by simp [beqJ] at h
  | .jnum _, .jbool _, h => by simp [beqJ] at h
  | .jnum a, .jnum b, h => by simp [beqJ] at h; simp [h]
  | .jnum _, .jstr _, h => by simp [beqJ] at h
  | .jnum _, .jarr _, h => by simp [beqJ] at h
  | .jnum _, .jobj _, h => by simp [beqJ] at h
  | .jstr _, .jnull, h => by simp [beqJ] at h
  | .jstr _, .jbool _, h => by simp [beqJ] at h
  | .jstr _, .jnum _, h => by simp [beqJ] at h
  | .jstr a, .jstr b, h => by simp [beqJ] at h; simp [h]
  | .jstr _, .jarr _, h => by simp [beqJ] at h
  | .jstr _, .jobj _, h => by simp [beqJ] at h
  | .jarr _, .jnull, h => by simp [beqJ] at h
  | .jarr _, .jbool _, h => by simp [beqJ] at h
  | .jarr _, .jnum _, h => by simp [beqJ] at h
  | .jarr _, .jstr _, h => by simp [beqJ] at h
  | .jarr a, .jarr b, h => by
      have := beqL_eq a b (by simpa [beqJ] using h)
      simp [this]
  | .jarr _, .jobj _, h => by simp [beqJ] at h
  | .jobj _, .jnull, h => by simp [beqJ] at h
  | .jobj _, .jbool _, h => by simp [beqJ] at h
  | .jobj _, .jnum _, h => by simp [beqJ] at h
  | .jobj _, .jstr _, h => by simp [beqJ] at h
  | .jobj _, .jarr _, h => by simp [beqJ] at h
  | .jobj a, .jobj b, h => by
      have := beqF_eq a b (by simpa [beqJ] using h)
      simp [this]

theorem beqL_eq : ∀ a b, beqL a b = true → a = b
  | [], [], _ => rfl
  | [], _ :: _, h => by simp [beqL] at h
  | _ :: _, [], h => by simp [beqL] at h
  | x :: xs, y :: ys, h => by
      simp [beqL] at h
      have h1 := beqJ_eq x y h.1
      have h2 := beqL_eq xs ys h.2
      simp [h1, h2]

theorem beqF_eq : ∀ a b, beqF a b = true → a = b
  | [], [], _ => rfl
  | [], _ :: _, h => by simp [beqF] at h
  | _ :: _, [], h => by simp [beqF] at h
  | (k1, v1) :: xs, (k2, v2) :: ys, h => by
      simp [beqF] at h
      have h1 := beqJ_eq v1 v2 h.1.2
      have h2 := beqF_eq xs ys h.2
      simp [h.1.1, h1, h2]

end

instance : DecidableEq JVal := fun a b =>
  decidable_of_iff (beqJ a b = true) ⟨beqJ_eq a b, fun h => h ▸ beqJ_refl a⟩

/-- Whitespace recognised by the JSON grammar (`json.loads`). -/
def isJWs (c : Char) : Bool := c = ' ' || c = '\t' || c = '\n' || c = '\r'

/-- Drop leading JSON whitespace. -/
def skipJWs (cs : List Char) : List Char := cs.dropWhile isJWs

/-- Value of a hexadecimal digit, if any. -/
def hexDigit (c : Char) : Option Nat :=
  if '0' ≤ c ∧ c ≤ '9' then some (c.toNat - '0'.toNat)
  else if 'a' ≤ c ∧ c ≤ 'f' then some (c.toNat - 'a'.toNat + 10)
  else if 'A' ≤ c ∧ c ≤ 'F' then some (c.toNat - 'A'.toNat + 10)
  else none

/-- Short escapes accepted after a backslash in a JSON string literal. -/
def escChar (c : Char) : Option Char :=
  if c = '"' then some '"'
  else if c = '\\' then some '\\'
  else if c = '/' then some '/'
  else if c = 'n' then some '\n'
  else if c = 't' then some '\t'
  else if c = 'r' then some '\r'
  else if c = 'b' then some (Char.ofNat 8)
  else if c = 'f' then some (Char.ofNat 12)
  else none

/-- Body of a JSON string literal, after the opening quote.  Strict mode, as
in `json.loads`: raw control characters and unknown escapes are rejected. -/
def readStrBody (acc : List Char) : List Char → Option (List Char × List Char)
  | [] => none
  | '"' :: r => some (acc.reverse, r)
  | '\\' :: r =>
    match r with
    | 'u' :: a :: b :: c :: d :: r' =>
      match hexDigit a, hexDigit b, hexDigit c, hexDigit d with
      | some va, some vb, some vc, some vd =>
        readStrBody (Char.ofNat (((va * 16 + vb) * 16 + vc) * 16 + vd) :: acc) r'
      | _, _, _, _ => none
    | e :: r' =>
      match escChar e with
      | some ch => readStrBody (ch :: acc) r'
      | none => none
    | [] => none
  | c :: r => if c.toNat < 32 then none else readStrBody (c :: acc) r

/-- Integer literal: optional sign, digits, no redundant leading zero, and no
fraction or exponent part following. -/
def readIntTok (cs : List Char) : Option (JVal × List Char) :=
  let (neg, cs1) : Bool × List Char :=
    match cs with
    | '-' :: r => (true, r)
    | _ => (false, cs)
  let ds := cs1.takeWhile Char.isDigit
  let rest := cs1.dropWhile Char.isDigit
  if ds = [] then none
  else if 1 < ds.length ∧ ds.headI = '0' then none
  else
    match rest with
    | '.' :: _ => none
    | 'e' :: _ => none
    | 'E' :: _ => none
    | _ =>
      let n : Int := ds.foldl (fun a c => a * 10 + (c.toNat - '0'.toNat : Int)) 0
      some (.jnum (if neg then -n else n), rest)

mutual

/-- One JSON value, fuel-indexed (fuel bounds the number of parser steps). -/
def parseJ : Nat → List Char → Option (JVal × List Char)
  | 0, _ => none
  | Nat.succ fuel, cs =>
    match skipJWs cs with
    | 'n' :: 'u' :: 'l' :: 'l' :: r => some (.jnull, r)
    | 't' :: 'r' :: 'u' :: 'e' :: r => some (.jbool true, r)
    | 'f' :: 'a' :: 'l' :: 's' :: 'e' :: r => some (.jbool false, r)
    | '"' :: r =>
      match readStrBody [] r with
      | some (s, r') => some (.jstr (String.mk s), r')
      | none => none
    | '[' :: r =>
      match skipJWs r with
      | ']' :: r' => some (.jarr [], r')
      | r2 =>
        match parseItems fuel r2 with
        | some (vs, r') => some (.jarr vs, r')
        | none => none
    | '{' :: r =>
      match skipJWs r with
      | '}' :: r' => some (.jobj [], r')
      | r2 =>
        match parseKVs fuel r2 with
        | some (ms, r') => some (.jobj ms, r')
        | none => none
    | c :: r =>
      if c = '-' ∨ c.isDigit then readIntTok (c :: r) else none
    | [] => none

/-- One-or-more comma-separated array elements, then the closing bracket. -/
def parseItems : Nat → List Char → Option (List JVal × List Char)
  | 0, _ => none
  | Nat.succ fuel, cs =>
    match parseJ fuel cs with
    | none => none
    | some (v, r) =>
      match skipJWs r with
      | ',' :: r' =>
        match parseItems fuel r' with
        | some (vs, r'') => some (v :: vs, r'')
        | none => none
      | ']' :: r' => some ([v], r')
      | _ => none

/-- One-or-more comma-separated object members, then the closing brace. -/
def parseKVs : Nat → List Char → Option (List (String × JVal) × List Char)
  | 0, _ => none
  | Nat.succ fuel, cs =>
    match skipJWs cs with
    | '"' :: r =>
      match readStrBody [] r with
      | none => none
      | some (k, r1) =>
        match skipJWs r1 with
        | ':' :: r2 =>
          match parseJ fuel r2 with
          | none => none
          | some (v, r3) =>
            match skipJWs r3 with
            | ',' :: r4 =>
              match parseKVs fuel r4 with
              | some (ms, r5) => some ((String.mk k, v) :: ms, r5)
              | none => none
            | '}' :: r4 => some ([(String.mk k, v)], r4)
            | _ => none
        | _ => none
    | _ => none

end

/-- Model of `json.loads`: whole-input parse, allowing only trailing
whitespace ("Extra data" is an error, as is empty input). -/
def json_loads (s : String) : Option JVal :=
  match parseJ (s.data.length + 1) s.data with
  | some (v, rest) => if skipJWs rest = [] then some v else none
  | none => none

/-- Same, but on a character list (the scanners work on `List Char`). -/
def json_loads_cs (cs : List Char) : Option JVal :=
  json_loads (String.mk cs)

/-- Python dict lookup on a parsed object: the last binding of a key wins
(later duplicates overwrite in `json.loads`); `none` on non-objects. -/
def jGet (v : JVal) (k : String) : Option JVal :=
  match v with
  | .jobj fs => ((fs.reverse).find? (fun p => p.1 = k)).map Prod.snd
  | _ => none

/-- Python truthiness of a JSON value (`if section.get('id')`). -/
def pyTruthy : JVal → Bool
  | .jnull => false
  | .jbool b => b
  | .jnum n => n != 0
  | .jstr s => s != ""
  | .jarr xs => !xs.isEmpty
  | .jobj fs => !fs.isEmpty

/-! ### Python string helpers -/

/-- The characters Python `str.strip()` removes, which are also the regex
class `\s` (space, tab, newline, carriage return, vertical tab, form feed). -/
def isPyWs (c : Char) : Bool :=
  c = ' ' || c = '\t' || c = '\n' || c = '\r' || c = '\x0b' || c = '\x0c'

/-- Python `str.strip()`. -/
def pyStrip (cs : List Char) : List Char :=
  ((cs.dropWhile isPyWs).reverse.dropWhile isPyWs).reverse

/-- Model of ``re.sub(r'^```json?\s*', '', t)``: the pattern needs three
backticks and at least `jso`, the final `n` being optional, then greedy
whitespace; it strips a match at the start, otherwise leaves `t` alone. -/
def stripFenceFront (cs : List Char) : List Char :=
  if ("```json".data).isPrefixOf cs then (cs.drop 7).dropWhile isPyWs
  else if ("```jso".data).isPrefixOf cs then (cs.drop 6).dropWhile isPyWs
  else cs

/-- Model of ``re.sub(r'\s*```$', '', t)``: when `t` ends with three
backticks, drop them together with the whitespace run just before them. -/
def stripFenceBack (cs : List Char) : List Char :=
  if ("```".data).isSuffixOf cs then
    ((cs.take (cs.length - 3)).reverse.dropWhile isPyWs).reverse
  else cs

/-- The end-of-stream marker appended by `analyze_video_transcript_stream`. -/
def seMarker : List Char := "[STREAM_END]".data

/-- Python `text.replace('[STREAM_END]', '')`, fuel-indexed: at each
position, skip a whole occurrence of the marker, else keep the character.
Every step consumes at least one character, so `fuel = length` suffices. -/
def removeSEF : Nat → List Char → List Char
  | 0, l => l
  | Nat.succ _, [] => []
  | Nat.succ f, c :: rest =>
    if seMarker.isPrefixOf (c :: rest) then removeSEF f ((c :: rest).drop 12)
    else c :: removeSEF f rest

/-- `text.replace('[STREAM_END]', '')`. -/
def removeSE (l : List Char) : List Char := removeSEF l.length l

/-- The text cleanup at the head of `parse_analysis_result`:
strip, leading fence, trailing fence, delete `[STREAM_END]`, strip. -/
def pa_clean (s : String) : List Char :=
  pyStrip (removeSE (stripFenceBack (stripFenceFront (pyStrip s.data))))

/-- The text cleanup at the head of `_extract_json`: strip and fences only
(the caller is expected to have removed the stream marker itself). -/
def ej_clean (s : String) : List Char :=
  stripFenceBack (stripFenceFront (pyStrip s.data))

/-! ### The shared string-unaware brace scan

All three extraction sites (`parse_analysis_result`, `_extract_json`,
`try_parse_video_info` / `try_parse_sections`) run the same loop: walk the
text from a start position, `brace_count += 1` on every `{` and
`brace_count -= 1` on every `}` — with no tracking of quoted strings — and
stop at the `}` where the counter reaches zero, taking `text[start:i+1]`.
If the counter never reaches zero, `end` keeps its initial value `start`
and the selected slice is empty. -/

/-- The scan loop; `acc` is the slice accumulated so far. -/
def braceScan (depth : Int) (acc : List Char) : List Char → List Char
  | [] => []
  | c :: rest =>
    if c = '{' then braceScan (depth + 1) (acc ++ [c]) rest
    else if c = '}' then
      if depth - 1 = 0 then acc ++ [c]
      else braceScan (depth - 1) (acc ++ [c]) rest
    else braceScan depth (acc ++ [c]) rest

/-- The slice `text[start:end]` the scan selects, starting from `start`. -/
def braceSpan (cs : List Char) : List Char := braceScan 0 [] cs

/-! ### The canonical schema (`VideoAnalysisResult` pydantic models) -/

structure ContentItem where
  content : String
  timestampStart : String
deriving DecidableEq

structure Section where
  id : String
  title : String
  content : List ContentItem
deriving DecidableEq

structure VideoInfo where
  title : String
  videoId : String
  description : String
  thumbnail : String
  summary : String
deriving DecidableEq

structure VideoAnalysisResult where
  videoInfo : VideoInfo
  sections : List Section
deriving DecidableEq

/-- A string-typed field of a parsed object (pydantic requires `str`). -/
def jGetStr (v : JVal) (k : String) : Option String :=
  match jGet v k with
  | some (.jstr s) => some s
  | _ => none

/-- Validation of one content item. -/
def validateContentItem (v : JVal) : Option ContentItem :=
  match jGetStr v "content", jGetStr v "timestampStart" with
  | some c, some t => some ⟨c, t⟩
  | _, _ => none

/-- Validation of one section. -/
def validateSection (v : JVal) : Option Section :=
  match jGetStr v "id", jGetStr v "title", jGet v "content" with
  | some i, some t, some (.jarr xs) =>
    match xs.mapM validateContentItem with
    | some items => some ⟨i, t, items⟩
    | none => none
  | _, _, _ => none

/-- Validation of the `videoInfo` object. -/
def validateVideoInfo (v : JVal) : Option VideoInfo :=
  match jGetStr v "title", jGetStr v "videoId", jGetStr v "description",
      jGetStr v "thumbnail", jGetStr v "summary" with
  | some t, some vid, some d, some th, some su => some ⟨t, vid, d, th, su⟩
  | _, _, _, _, _ => none

/-- Validation of the whole document (`VideoAnalysisResult(**data)`). -/
def validateAnalysis (v : JVal) : Option VideoAnalysisResult :=
  match jGet v "videoInfo", jGet v "sections" with
  | some vi, some (.jarr xs) =>
    match validateVideoInfo vi, xs.mapM validateSection with
    | some info, some secs => some ⟨info, secs⟩
    | _, _ => none
  | _, _ => none

/-- `model_dump()` of a validated document, back to a JSON value. -/
def dumpAnalysis (r : VideoAnalysisResult) : JVal :=
  .jobj [("videoInfo", .jobj [("title", .jstr r.videoInfo.title),
            ("videoId", .jstr r.videoInfo.videoId),
            ("description", .jstr r.videoInfo.description),
            ("thumbnail", .jstr r.videoInfo.thumbnail),
            ("summary", .jstr r.videoInfo.summary)]),
         ("sections", .jarr (r.sections.map (fun s =>
            .jobj [("id", .jstr s.id), ("title", .jstr s.title),
                   ("content", .jarr (s.content.map (fun c =>
                      .jobj [("content", .jstr c.content),
                             ("timestampStart", .jstr c.timestampStart)])))])))]

/-! ### `llm_server.py`: `parse_analysis_result` and `_extract_json` -/

/-- `parse_analysis_result` (llm_server.py, lines 267-302).  Every `raise`
in the Python body — the explicit `ValueError`, a `json.loads` failure on
the selected slice, a pydantic validation failure — is an `Except.error`. -/
def parse_analysis_result (s : String) : Except String VideoAnalysisResult :=
  let text := pa_clean s
  match text.dropWhile (fun c => c ≠ '{') with
  | [] => .error "No JSON found in response"
  | tail =>
    match json_loads_cs (braceSpan tail) with
    | none => .error "Expecting value"
    | some data =>
      match validateAnalysis data with
      | some r => .ok r
      | none => .error "validation error"

/-- `_extract_json` (llm_server.py, lines 629-651): returns `{}` when no
`{` is present; a `json.loads` failure on the slice still propagates. -/
def _extract_json (s : String) : Except String JVal :=
  let text := ej_clean s
  match text.dropWhile (fun c => c ≠ '{') with
  | [] => .ok (.jobj [])
  | tail =>
    match json_loads_cs (braceSpan tail) with
    | none => .error "Expecting value"
    | some v => .ok v

/-! ### `main.py`: the incremental extractor inside `generate` -/

/-- The cleanup both `try_parse_*` helpers start with:
``re.sub(r'^```json?\s*', '', content.strip())``. -/
def vi_clean (s : String) : List Char := stripFenceFront (pyStrip s.data)

/-- One attempt of ``re.search(r'"key"\s*:\s*(\{)')`` at the current
position: the quoted literal, optional whitespace, a colon, optional
whitespace, then the sought bracket; returns the suffix starting at the
bracket character when `keepBracket`, else just after it. -/
def matchKeyAt (lit : List Char) (bracket : Char) (keepBracket : Bool)
    (cs : List Char) : Option (List Char) :=
  if lit.isPrefixOf cs then
    match (cs.drop lit.length).dropWhile isPyWs with
    | ':' :: r2 =>
      match r2.dropWhile isPyWs with
      | c :: r3 => if c = bracket then some (if keepBracket then c :: r3 else r3) else none
      | [] => none
    | _ => none
  else none

/-- `re.search`: the leftmost position where the pattern matches. -/
def searchKey (lit : List Char) (bracket : Char) (keepBracket : Bool) :
    List Char → Option (List Char)
  | [] => none
  | c :: rest =>
    match matchKeyAt lit bracket keepBracket (c :: rest) with
    | some r => some r
    | none => searchKey lit bracket keepBracket rest

/-- `try_parse_video_info` (main.py, lines 1349-1372): find
`"videoInfo"\s*:\s*{`, scan to the matching brace with the string-unaware
counter, `json.loads` the slice; `None` on no match, no close, or a load
failure. -/
def try_parse_video_info (content : String) : Option JVal :=
  match searchKey ("\"videoInfo\"".data) '{' true (vi_clean content) with
  | none => none
  | some tail => json_loads_cs (braceSpan tail)

/-- The characters the sections loop skips between objects
(`text[i] in ' \t\n\r,'`). -/
def isSkipC (c : Char) : Bool :=
  c = ' ' || c = '\t' || c = '\n' || c = '\r' || c = ','

/-- The scanning loop of `try_parse_sections` (main.py, lines 1388-1418),
fuel-indexed: skip separators, stop at `]` or end of text, step over a
non-`{` character, and at each `{` take the string-unaware brace span: an
unterminated span ends the loop; otherwise the slice is `json.loads`-ed
and appended — and its id recorded — only when it parses, carries a truthy
`id`, and that id is not in `seen` yet. -/
def sectionsLoop : Nat → List Char → List JVal → List JVal → List JVal × List JVal
  | 0, _, seen, acc => (acc, seen)
  | Nat.succ fuel, cs, seen, acc =>
    match cs.dropWhile isSkipC with
    | [] => (acc, seen)
    | c :: rest =>
      if c = ']' then (acc, seen)
      else if c ≠ '{' then sectionsLoop fuel rest seen acc
      else
        let span := braceSpan (c :: rest)
        if span = [] then (acc, seen)
        else
          match json_loads_cs span with
          | some sec =>
            match jGet sec "id" with
            | some idv =>
              if pyTruthy idv ∧ idv ∉ seen then
                sectionsLoop fuel ((c :: rest).drop span.length) (seen ++ [idv]) (acc ++ [sec])
              else sectionsLoop fuel ((c :: rest).drop span.length) seen acc
            | none => sectionsLoop fuel ((c :: rest).drop span.length) seen acc
          | none => sectionsLoop fuel ((c :: rest).drop span.length) seen acc

/-- `try_parse_sections` (main.py, lines 1374-1420): locate
`"sections"\s*:\s*[` and run the loop from just after the `[`; returns the
newly found sections together with the updated `seen_ids`. -/
def try_parse_sections (content : String) (seen : List JVal) :
    List JVal × List JVal :=
  let text := vi_clean content
  match searchKey ("\"sections\"".data) '[' false text with
  | none => ([], seen)
  | some tail => sectionsLoop (tail.length + 1) tail seen []

/-- The structured events `generate` yields while streaming. -/
inductive Event where
  | vinfo : JVal → Event
  | sec : JVal → Event
deriving DecidableEq

/-- The incremental-parsing state of `generate`'s streaming loop. -/
structure GenState where
  full : String
  viSent : Bool
  seen : List JVal
deriving DecidableEq

/-- One chunk of `generate`'s `async for` loop (main.py, lines 1422-1441):
drop the stream marker, append to the buffer, emit `video_info` once it
parses truthy (guarded by the `video_info_sent` flag), then emit every new
section. -/
def streamStep (st : GenState) (chunk : String) : GenState × List Event :=
  if chunk = "\n[STREAM_END]" then (st, [])
  else
    let full := st.full ++ chunk
    let vOk : Option JVal :=
      if st.viSent then none
      else
        match try_parse_video_info full with
        | some v => if pyTruthy v then some v else none
        | none => none
    let ps := try_parse_sections full st.seen
    (⟨full, st.viSent || vOk.isSome, ps.2⟩,
      (vOk.toList.map Event.vinfo) ++ ps.1.map Event.sec)

/-- The whole loop from a given state. -/
def runStreamAux (st : GenState) : List String → GenState × List Event
  | [] => (st, [])
  | c :: cs =>
    let p1 := streamStep st c
    let p2 := runStreamAux p1.1 cs
    (p2.1, p1.2 ++ p2.2)

/-- The whole loop from the initial state of `generate`
(`full_response = ""`, `video_info_sent = False`, `sent_section_ids = set()`). -/
def runStream (chunks : List String) : GenState × List Event :=
  runStreamAux ⟨"", false, []⟩ chunks

/-- The section ids carried by the emitted `section` events. -/
def emittedSecIds (evs : List Event) : List JVal :=
  evs.filterMap (fun e => match e with | .sec s => jGet s "id" | _ => none)

/-- How many `video_info` events a list holds. -/
def viCount (evs : List Event) : Nat :=
  (evs.filter (fun e => match e with | .vinfo _ => true | _ => false)).length

/-! ### `main.py`: the final reconciled document (lines 1447-1461) -/

/-- The minimal fallback document built when every parse fails. -/
def fallback_video_data (fallbackTitle videoId : String) : JVal :=
  .jobj [("videoInfo", .jobj [("title", .jstr fallbackTitle),
            ("videoId", .jstr videoId)]),
         ("sections", .jarr [])]

/-- The `video_data_json` sent with the final `[DONE]` frame: the parsed
and validated document, else a raw `json.loads` of the fence-stripped
buffer, else the fallback skeleton. -/
def final_video_data (full_response fallbackTitle videoId : String) : JVal :=
  match parse_analysis_result full_response with
  | .ok doc => dumpAnalysis doc
  | .error _ =>
    match json_loads (String.mk (ej_clean full_response)) with
    | some v => v
    | none => fallback_video_data fallbackTitle videoId

/-- The section ids present in a document's `sections` array. -/
def docSecIds (v : JVal) : List JVal :=
  match jGet v "sections" with
  | some (.jarr xs) => xs.filterMap (fun s => jGet s "id")
  | _ => []

/-! ### `llm_server.py`: `_sample_transcript` (lines 612-627) -/

/-- The gap marker the sampler joins segments with (`"\n\n[...]\n\n"`). -/
def gapMarker : List Char := "\n\n[...]\n\n".data

/-- Python `text.split('\n')`. -/
def splitNl : List Char → List (List Char)
  | [] => [[]]
  | c :: rest =>
    match splitNl rest with
    | s :: ss => if c = '\n' then [] :: s :: ss else (c :: s) :: ss
    | [] => [[c]]

/-- `sep.join(parts)`. -/
def joinWith (sep : List Char) (parts : List (List Char)) : List Char :=
  List.intercalate sep parts

/-- `_sample_transcript`: return the text verbatim when it fits the budget;
otherwise split the stripped text into lines, set
`lines_per_seg = len(lines) // 10`, and take, for each of the ten segment
indices `i`, the block `lines[i*lines_per_seg : min(i*lines_per_seg +
lines_per_seg, len(lines))]`, joining blocks with the gap marker. -/
def _sample_transcript (text : String) (max_chars : Nat := 15000) : String :=
  if text.length ≤ max_chars then text
  else
    let lines := splitNl (pyStrip text.data)
    let n := lines.length
    let lps := n / 10
    let sampled := (List.range 10).map (fun i =>
      joinWith ['\n'] ((lines.drop (i * lps)).take (min (i * lps + lps) n - i * lps)))
    String.mk (joinWith gapMarker sampled)

/-! ### `llm_server.py`: the chat memory (lines 89-115, 307-370) -/

/-- One remembered message (`HumanMessage` / `AIMessage`). -/
inductive Msg where
  | human : String → Msg
  | ai : String → Msg
deriving DecidableEq

/-- The `_chat_memories` dict, as a total map from memory key to the deque's
contents (a missing key reads as the freshly created empty deque). -/
def MemStore : Type := String → List Msg

/-- `f"{user_id}:{video_id}"`. -/
def memory_key (video_id user_id : String) : String := user_id ++ ":" ++ video_id

/-- `deque(maxlen=n).append`: push right, discarding from the left when over
capacity.  The deques here use `maxlen = _memory_window_size * 2 = 10`. -/
def dequeAppend (maxlen : Nat) (d : List Msg) (m : Msg) : List Msg :=
  let d' := d ++ [m]
  d'.drop (d'.length - maxlen)

/-- `_get_memory`: look up (or lazily create) the session's deque. -/
def _get_memory (store : MemStore) (video_id user_id : String) : List Msg :=
  store (memory_key video_id user_id)

/-- `_add_to_memory`: append the human message, then the AI message. -/
def _add_to_memory (store : MemStore) (video_id user_id human_msg ai_msg : String) :
    MemStore :=
  fun k =>
    if k = memory_key video_id user_id then
      dequeAppend 10 (dequeAppend 10 (_get_memory store video_id user_id)
        (.human human_msg)) (.ai ai_msg)
    else store k

/-- `_get_memory_messages`: the current window, oldest first. -/
def _get_memory_messages (store : MemStore) (video_id user_id : String) : List Msg :=
  _get_memory store video_id user_id

/-- The memory behaviour of one `chat_with_video` call: the prompt context
(`chat_history`) is read before the call's turn is appended; the LLM reply
is an external input.  Returns (context used, store afterwards). -/
def chat_with_video_mem (store : MemStore)
    (video_id user_id user_message llm_reply : String) : List Msg × MemStore :=
  (_get_memory_messages store video_id user_id,
   _add_to_memory store video_id user_id user_message llm_reply)

/-- `N` successive `_add_to_memory` calls on one session. -/
def addAll (store : MemStore) (video_id user_id : String)
    (pairs : List (String × String)) : MemStore :=
  pairs.foldl (fun st p => _add_to_memory st video_id user_id p.1 p.2) store

/-- The message sequence of a list of user/assistant pairs, oldest first. -/
def pairMsgs (pairs : List (String × String)) : List Msg :=
  pairs.flatMap (fun p => [.human p.1, .ai p.2])

/-! ### `youtube_search_service.py`: `hash_object` (lines 72-79)

`hash_object` is `sha256(json.dumps(obj, sort_keys=True,
ensure_ascii=False).encode()).hexdigest()`.  The serialization is modelled
below; the digest is a fixed function of the serialized string, so the
theorems quantify over an arbitrary `sha : String → String`. -/

/-- One character of a `json.dumps` string literal (`ensure_ascii=False`:
only the quote, the backslash and control characters are escaped). -/
def escJChar (c : Char) : List Char :=
  if c = '"' then ['\\', '"']
  else if c = '\\' then ['\\', '\\']
  else if c = '\n' then ['\\', 'n']
  else if c = '\t' then ['\\', 't']
  else if c = '\r' then ['\\', 'r']
  else if c.toNat = 8 then ['\\', 'b']
  else if c.toNat = 12 then ['\\', 'f']
  else if c.toNat < 32 then
    ['\\', 'u', '0', '0', (Nat.digitChar (c.toNat / 16)), (Nat.digitChar (c.toNat % 16))]
  else [c]

/-- A quoted, escaped string literal. -/
def qstr (s : String) : List Char := '"' :: (s.data.flatMap escJChar) ++ ['"']

/-- Fields are emitted in key order when `sort_keys=True`. -/
def pairLE (a b : String × List Char) : Prop := a.1 ≤ b.1

instance : DecidableRel pairLE := fun a b => inferInstanceAs (Decidable (a.1 ≤ b.1))

instance : IsTotal (String × List Char) pairLE := ⟨fun a b => le_total a.1 b.1⟩

instance : IsTrans (String × List Char) pairLE := ⟨fun _ _ _ h1 h2 => le_trans h1 h2⟩

/-- `', '.join` of rendered pieces (the default `json.dumps` separators). -/
def joinComma (parts : List (List Char)) : List Char :=
  List.intercalate (", ".data) parts

mutual

/-- `json.dumps(v, sort_keys=True, ensure_ascii=False)`, character list. -/
def serJ : JVal → List Char
  | .jnull => "null".data
  | .jbool b => if b then "true".data else "false".data
  | .jnum n => (toString n).data
  | .jstr s => qstr s
  | .jarr xs => '[' :: (joinComma (serList xs) ++ [']'])
  | .jobj fs =>
    '{' :: (joinComma ((List.insertionSort pairLE (serFields fs)).map Prod.snd) ++ ['}'])

/-- Rendered array elements, in order. -/
def serList : List JVal → List (List Char)
  | [] => []
  | v :: rest => serJ v :: serList rest

/-- Each field rendered as `"key": value`, still keyed for the sort. -/
def serFields : List (String × JVal) → List (String × List Char)
  | [] => []
  | (k, v) :: rest => (k, qstr k ++ (':' :: ' ' :: serJ v)) :: serFields rest

end

/-- The normalized serialization the cache key is derived from. -/
def json_dumps_sorted (v : JVal) : String := String.mk (serJ v)

/-- `hash_object`, with the digest abstracted: `sha` stands for the fixed
function `s ↦ sha256(s.encode('utf-8')).hexdigest()`. -/
def hash_object (sha : String → String) (obj : JVal) : String :=
  sha (json_dumps_sorted obj)

/-! ### `youtube_search_service.py`: the response cache (lines 131-132, 165-168, 213)

The cache itself is `cachetools.TTLCache(maxsize=100, ttl=600)`, a
third-party dependency whose code is not under `src/`. -/

/-- Modelled from the spec: the missing `cachetools.TTLCache` store, per
§3 "CacheEntry" — entries carry `insertedAt` and the cache's `ttl`, and an
entry "silently expires (logically deleted) once `now > insertedAt + ttl`". -/
structure TTLCacheModel (V : Type) where
  ttl : Nat
  entries : List (String × V × Nat)

/-- Modelled from the spec: `self._cache[cache_key] = result` — store the
value with the insertion instant, replacing any previous entry. -/
def cachePut {V : Type} (c : TTLCacheModel V) (k : String) (v : V) (now : Nat) :
    TTLCacheModel V :=
  ⟨c.ttl, (k, v, now) :: c.entries.filter (fun e => e.1 ≠ k)⟩

/-- Modelled from the spec: `cache_key in self._cache` / `self._cache[key]`
— a hit only while the entry exists and has not expired
(`now > insertedAt + ttl` is a miss). -/
def cacheGet {V : Type} (c : TTLCacheModel V) (k : String) (now : Nat) : Option V :=
  match c.entries.find? (fun e => e.1 = k) with
  | some (_, v, t) => if now > t + c.ttl then none else some v
  | none => none

/-- The cache interaction of `search_youtube` (lines 165-168, 213): serve a
hit from the cache, otherwise issue the upstream request and store its
result.  Returns (response, whether upstream was called, cache after). -/
def search_youtube_cached {V : Type} (c : TTLCacheModel V) (k : String)
    (now : Nat) (upstream : V) : V × Bool × TTLCacheModel V :=
  match cacheGet c k now with
  | some v => (v, false, c)
  | none => (upstream, true, cachePut c k upstream now)

end YTP

namespace YTP

/-! ## Helper lemmas -/

theorem mem_dropWhile_of_not {α : Type _} {p : α → Bool} {c : α} (hc : p c = false) :
    ∀ {l : List α}, c ∈ l → c ∈ l.dropWhile p
  | [], h => absurd h (List.not_mem_nil c)
  | a :: l, h => by
      cases hp : p a with
      | true =>
        rw [List.dropWhile_cons_of_pos hp]
        rcases List.mem_cons.mp h with rfl | hmem
        · rw [hc] at hp; cases hp
        · exact mem_dropWhile_of_not hc hmem
      | false =>
        rw [List.dropWhile_cons_of_neg (by simp [hp])]
        exact h

theorem mem_pyStrip {c : Char} (hc : isPyWs c = false) {l : List Char} (h : c ∈ l) :
    c ∈ pyStrip l := by
  unfold pyStrip
  exact List.mem_reverse.mpr (mem_dropWhile_of_not hc
    (List.mem_reverse.mpr (mem_dropWhile_of_not hc h)))

theorem mem_removeSEF {c : Char} (hc : c ∉ seMarker) :
    ∀ (f : Nat) (l : List Char), c ∈ l → c ∈ removeSEF f l
  | 0, _, h => h
  | Nat.succ _, [], h => absurd h (List.not_mem_nil c)
  | Nat.succ f, a :: rest, h => by
      rw [removeSEF]
      by_cases hp : seMarker.isPrefixOf (a :: rest)
      · rw [if_pos hp]
        obtain ⟨t, ht⟩ := List.isPrefixOf_iff_prefix.mp hp
        have hdrop : (a :: rest).drop 12 = t := by
          rw [← ht, List.drop_append_of_le_length (by rfl)]
          simp [seMarker]
        rw [hdrop]
        apply mem_removeSEF hc f
        rw [← ht] at h
        rcases List.mem_append.mp h with h1 | h2
        · exact absurd h1 hc
        · exact h2
      · rw [if_neg hp]
        rcases List.mem_cons.mp h with rfl | hm
        · exact List.mem_cons_self _ _
        · exact List.mem_cons_of_mem _ (mem_removeSEF hc f rest hm)

theorem mem_removeSE {c : Char} (hc : c ∉ seMarker) {l : List Char} (h : c ∈ l) :
    c ∈ removeSE l := mem_removeSEF hc l.length l h

theorem no_brace_ej_of_no_brace_pa {s : String} (h : '{' ∉ pa_clean s) :
    '{' ∉ ej_clean s := fun hm =>
  h (mem_pyStrip (by decide) (mem_removeSE (by decide) hm))

/-! ## Claim C10 -/

/-- C10: for every input that, after the cleanup (fences and the
`[STREAM_END]` marker stripped), contains no `{`, `parse_analysis_result`
raises `ValueError("No JSON found in response")` — it never returns a
document — whereas `_extract_json` returns the empty dict on the same
class of inputs. -/
theorem claim_c10_no_brace (s : String) (h : '{' ∉ pa_clean s) :
    parse_analysis_result s = .error "No JSON found in response" ∧
    _extract_json s = .ok (.jobj []) := by
  have e1 : (pa_clean s).dropWhile (fun c => c ≠ '{') = [] :=
    List.dropWhile_eq_nil_iff.mpr (fun x hx => by
      simp only [ne_eq, decide_eq_true_eq]
      rintro rfl; exact h hx)
  have e2 : (ej_clean s).dropWhile (fun c => c ≠ '{') = [] :=
    List.dropWhile_eq_nil_iff.mpr (fun x hx => by
      simp only [ne_eq, decide_eq_true_eq]
      rintro rfl; exact no_brace_ej_of_no_brace_pa h hx)
  refine ⟨?_, ?_⟩
  · simp only [parse_analysis_result, e1]
  · simp only [_extract_json, e2]

/-- C10 witness at a concrete brace-free input. -/
theorem claim_c10_no_brace_witness :
    '{' ∉ pa_clean "hello world [STREAM_END]" ∧
    (parse_analysis_result "hello world [STREAM_END]" = .error "No JSON found in response" ∧
     _extract_json "hello world [STREAM_END]" = .ok (.jobj [])) :=
  ⟨by decide, claim_c10_no_brace "hello world [STREAM_END]" (by decide)⟩

/-! ## Claim C9 -/

/-- C9: a key inserted into the ttl-600 response cache at time `t` is a
miss at every strictly later time `tq > t + 600` — the entry is logically
deleted — and `search_youtube` then issues the upstream request again. -/
theorem claim_c9_cache_expiry {V : Type} (c : TTLCacheModel V) (k : String)
    (v u : V) (t tq : Nat) (httl : c.ttl = 600) (h : t + 600 < tq) :
    cacheGet (cachePut c k v t) k tq = none ∧
    (search_youtube_cached (cachePut c k v t) k tq u).2.1 = true := by
  have hg : cacheGet (cachePut c k v t) k tq = none := by
    unfold cacheGet cachePut
    rw [List.find?_cons_of_pos _ (by simp)]
    simp only []
    rw [if_pos (by simp [httl]; omega)]
  exact ⟨hg, by simp [search_youtube_cached, hg]⟩

/-- C9 witness: insert at 0, look up at 601, with ttl 600. -/
theorem claim_c9_cache_expiry_witness :
    (TTLCacheModel.mk 600 ([] : List (String × Nat × Nat))).ttl = 600 ∧
    (0 : Nat) + 600 < 601 ∧
    (cacheGet (cachePut (TTLCacheModel.mk 600 []) "k" (5 : Nat) 0) "k" 601 = none ∧
     (search_youtube_cached (cachePut (TTLCacheModel.mk 600 []) "k" (5 : Nat) 0) "k" 601 7).2.1 = true) :=
  ⟨rfl, by decide, claim_c9_cache_expiry (TTLCacheModel.mk 600 []) "k" 5 7 0 601 rfl (by decide)⟩

end YTP

namespace YTP

/-! ## Deque window lemmas (for C5 and C6) -/

/-- The last `n` elements of a list. -/
def keepLast {α : Type _} (n : Nat) (l : List α) : List α := l.drop (l.length - n)

theorem keepLast_eq_reverse_take {α : Type _} (n : Nat) (l : List α) :
    keepLast n l = (l.reverse.take n).reverse := by
  have h := List.reverse_take (l := l.reverse) (n := n)
  rw [List.reverse_reverse, List.length_reverse] at h
  rw [keepLast, ← h]

theorem keepLast_length_le {α : Type _} (n : Nat) (l : List α) :
    (keepLast n l).length ≤ n := by
  rw [keepLast_eq_reverse_take]
  simp

theorem take_append_take {α : Type _} (n : Nat) (a b : List α) :
    (a ++ b.take n).take n = (a ++ b).take n := by
  rw [List.take_append_eq_append_take, List.take_append_eq_append_take, List.take_take]
  congr 1
  exact congrArg (fun m => b.take m) (Nat.min_eq_left (Nat.sub_le n a.length))

theorem keepLast_append_keepLast {α : Type _} (n : Nat) (l r : List α) :
    keepLast n (keepLast n l ++ r) = keepLast n (l ++ r) := by
  rw [keepLast_eq_reverse_take n l, keepLast_eq_reverse_take, keepLast_eq_reverse_take,
    List.reverse_append, List.reverse_append, List.reverse_reverse, take_append_take]

theorem keepLast_append_of_le {α : Type _} (n : Nat) (a b : List α) (h : n ≤ b.length) :
    keepLast n (a ++ b) = keepLast n b := by
  rw [keepLast_eq_reverse_take, keepLast_eq_reverse_take, List.reverse_append,
    List.take_append_of_le_length (by simpa using h)]

theorem keepLast_eq_self {α : Type _} (n : Nat) (l : List α) (h : l.length ≤ n) :
    keepLast n l = l := by
  rw [keepLast, Nat.sub_eq_zero_of_le h, List.drop_zero]

/-- Reading the session just appended to shows the 10-message window over
the old contents plus the new turn pair. -/
theorem dequeAppend_eq_keepLast (d : List Msg) (m : Msg) :
    dequeAppend 10 d m = keepLast 10 (d ++ [m]) := rfl

theorem add_to_memory_read (store : MemStore) (vid uid hm am : String) :
    _get_memory_messages (_add_to_memory store vid uid hm am) vid uid =
      keepLast 10 (_get_memory_messages store vid uid ++ [Msg.human hm, Msg.ai am]) := by
  have h : _get_memory_messages (_add_to_memory store vid uid hm am) vid uid =
      dequeAppend 10 (dequeAppend 10 (_get_memory_messages store vid uid) (.human hm)) (.ai am) := by
    unfold _get_memory_messages _get_memory _add_to_memory
    rw [if_pos rfl]
    rfl
  rw [h, dequeAppend_eq_keepLast, dequeAppend_eq_keepLast, keepLast_append_keepLast,
    List.append_assoc]
  rfl

/-- One turn pair appended to a bare message list. -/
def memAppendPair (l : List Msg) (p : String × String) : List Msg :=
  dequeAppend 10 (dequeAppend 10 l (.human p.1)) (.ai p.2)

theorem memAppendPair_eq (l : List Msg) (p : String × String) :
    memAppendPair l p = keepLast 10 (l ++ [.human p.1, .ai p.2]) := by
  unfold memAppendPair
  rw [dequeAppend_eq_keepLast, dequeAppend_eq_keepLast, keepLast_append_keepLast,
    List.append_assoc]
  rfl

theorem addAll_read (vid uid : String) :
    ∀ (pairs : List (String × String)) (store : MemStore),
      _get_memory_messages (addAll store vid uid pairs) vid uid =
        List.foldl memAppendPair (_get_memory_messages store vid uid) pairs
  | [], _ => rfl
  | p :: ps, store => by
      unfold addAll
      rw [List.foldl_cons, List.foldl_cons]
      have h1 : List.foldl (fun st q => _add_to_memory st vid uid q.1 q.2)
          (_add_to_memory store vid uid p.1 p.2) ps =
          addAll (_add_to_memory store vid uid p.1 p.2) vid uid ps := rfl
      rw [h1, addAll_read vid uid ps]
      congr 1
      show _get_memory_messages (_add_to_memory store vid uid p.1 p.2) vid uid = _
      rw [add_to_memory_read]
      rw [memAppendPair_eq]

theorem pairMsgs_cons (p : String × String) (ps : List (String × String)) :
    pairMsgs (p :: ps) = Msg.human p.1 :: Msg.ai p.2 :: pairMsgs ps := rfl

theorem pairMsgs_length : ∀ ps : List (String × String), (pairMsgs ps).length = 2 * ps.length
  | [] => rfl
  | p :: ps => by
      rw [pairMsgs_cons]
      simp [pairMsgs_length ps]
      omega

theorem foldl_memAppendPair_bounded :
    ∀ (ps : List (String × String)) (l : List Msg), l.length ≤ 10 →
      List.foldl memAppendPair l ps = keepLast 10 (l ++ pairMsgs ps)
  | [], l, h => by
      show l = keepLast 10 (l ++ [])
      rw [List.append_nil, keepLast_eq_self 10 l h]
  | p :: ps, l, _ => by
      rw [List.foldl_cons,
        foldl_memAppendPair_bounded ps (memAppendPair l p)
          (le_trans (le_of_eq rfl) (by rw [memAppendPair_eq]; exact keepLast_length_le 10 _)),
        memAppendPair_eq, keepLast_append_keepLast, List.append_assoc, pairMsgs_cons]
      rfl

theorem foldl_memAppendPair_window :
    ∀ (pairs : List (String × String)), 5 ≤ pairs.length → ∀ l : List Msg,
      List.foldl memAppendPair l pairs = pairMsgs (pairs.drop (pairs.length - 5))
  | [], h, _ => absurd h (by simp)
  | p :: ps, h, l => by
      by_cases h5 : 5 ≤ ps.length
      · rw [List.foldl_cons, foldl_memAppendPair_window ps h5 (memAppendPair l p)]
        have he : (p :: ps).length - 5 = (ps.length - 5) + 1 := by
          simp only [List.length_cons]; omega
        rw [he, List.drop_succ_cons]
      · have h4 : ps.length = 4 := by simp only [List.length_cons] at h; omega
        rw [List.foldl_cons,
          foldl_memAppendPair_bounded ps (memAppendPair l p)
            (by rw [memAppendPair_eq]; exact keepLast_length_le 10 _),
          memAppendPair_eq, keepLast_append_keepLast, List.append_assoc]
        have hlen : ([Msg.human p.1, Msg.ai p.2] ++ pairMsgs ps).length = 10 := by
          simp [pairMsgs_length ps, h4]
        rw [keepLast_append_of_le 10 l _ (le_of_eq hlen.symm),
          keepLast_eq_self 10 _ (le_of_eq hlen)]
        have hz : (p :: ps).length - 5 = 0 := by simp [h4]
        rw [hz, List.drop_zero, pairMsgs_cons]
        rfl

/-! ## Claim C5 -/

/-- C5: after appending `N > 5` turn pairs to one `(user, video)` session,
reading the session returns exactly the last 5 pairs, oldest pair first:
the older pairs have been evicted from the front of the deque. -/
theorem claim_c5_memory_bound (store : MemStore) (vid uid : String)
    (pairs : List (String × String)) (h : 5 < pairs.length) :
    _get_memory_messages (addAll store vid uid pairs) vid uid =
      pairMsgs (pairs.drop (pairs.length - 5)) := by
  rw [addAll_read, foldl_memAppendPair_window pairs (le_of_lt h)]

/-- C5 witness: six pairs appended to a fresh store leave the last five. -/
theorem claim_c5_memory_bound_witness :
    5 < ([("u1", "a1"), ("u2", "a2"), ("u3", "a3"), ("u4", "a4"), ("u5", "a5"),
          ("u6", "a6")] : List (String × String)).length ∧
    _get_memory_messages
        (addAll (fun _ => [] : MemStore) "vid" "me"
          [("u1", "a1"), ("u2", "a2"), ("u3", "a3"), ("u4", "a4"), ("u5", "a5"), ("u6", "a6")])
        "vid" "me" =
      pairMsgs ([("u1", "a1"), ("u2", "a2"), ("u3", "a3"), ("u4", "a4"), ("u5", "a5"),
          ("u6", "a6")].drop
        ([("u1", "a1"), ("u2", "a2"), ("u3", "a3"), ("u4", "a4"), ("u5", "a5"),
          ("u6", "a6")].length - 5)) :=
  ⟨by decide, claim_c5_memory_bound _ "vid" "me" _ (by decide)⟩

end YTP

namespace YTP

/-! ## Claim C6 -/

/-- C6 counterexample: the claim — anonymous calls persist nothing and two
successive anonymous chat calls about the same video are isolated — is
false at a concrete run.  Starting from the empty store, one anonymous call
about video "v" changes the store at key `anonymous:v`, and a second
anonymous call reads the first call's turns into its prompt context. -/
theorem claim_c6_counterexample :
    ((chat_with_video_mem (fun _ => [] : MemStore) "v" "anonymous" "hi" "yo").2
        (memory_key "v" "anonymous") ≠
      (fun _ => [] : MemStore) (memory_key "v" "anonymous")) ∧
    (chat_with_video_mem
        ((chat_with_video_mem (fun _ => [] : MemStore) "v" "anonymous" "hi" "yo").2)
        "v" "anonymous" "again" "ok").1 = [Msg.human "hi", Msg.ai "yo"] := by
  refine ⟨?_, ?_⟩ <;> decide

/-- C6 (amended): a chat call without a caller-supplied user identifier
runs under the shared `"anonymous"` user id, and its conversational state
IS persisted, under the shared key `anonymous:<video_id>`: after the call
the session holds the 10-message window ending in the call's own turn
pair, so a subsequent anonymous call about the same video reads the
earlier call's turns in its prompt context. -/
theorem claim_c6_anonymous_persisted (store : MemStore) (vid m r : String) :
    _get_memory_messages (chat_with_video_mem store vid "anonymous" m r).2 vid "anonymous" =
      keepLast 10 (_get_memory_messages store vid "anonymous" ++ [Msg.human m, Msg.ai r]) ∧
    [Msg.human m, Msg.ai r] <:+
      _get_memory_messages (chat_with_video_mem store vid "anonymous" m r).2 vid "anonymous" := by
  have h1 : _get_memory_messages (chat_with_video_mem store vid "anonymous" m r).2
      vid "anonymous" =
      keepLast 10 (_get_memory_messages store vid "anonymous" ++ [Msg.human m, Msg.ai r]) :=
    add_to_memory_read store vid "anonymous" m r
  refine ⟨h1, ?_⟩
  rw [h1]
  have h2 : keepLast 10 (_get_memory_messages store vid "anonymous" ++ [Msg.human m, Msg.ai r]) =
      (_get_memory_messages store vid "anonymous").drop
        ((_get_memory_messages store vid "anonymous").length + 2 - 10) ++
        [Msg.human m, Msg.ai r] := by
    rw [keepLast, List.length_append]
    exact List.drop_append_of_le_length (by simp)
  exact ⟨_, h2.symm⟩

/-! ## Claim C8 -/

theorem serFields_eq_map :
    ∀ l : List (String × JVal),
      serFields l = l.map (fun p => (p.1, qstr p.1 ++ (':' :: ' ' :: serJ p.2)))
  | [] => rfl
  | (k, v) :: rest => by
      rw [serFields, serFields_eq_map rest, List.map_cons]

/-- Strict key order, for the antisymmetry needed by sortedness-uniqueness. -/
def pairLT (a b : String × List Char) : Prop := a.1 < b.1

instance : IsAntisymm (String × List Char) pairLT :=
  ⟨fun _ _ h1 h2 => absurd (lt_trans h1 h2) (lt_irrefl _)⟩

theorem sorted_strict_of_sorted_nodup {l : List (String × List Char)}
    (hs : List.Sorted pairLE l) (hnd : (l.map Prod.fst).Nodup) :
    List.Sorted pairLT l :=
  (hs.and (List.pairwise_map.mp hnd)).imp (fun h => lt_of_le_of_ne h.1 h.2)

theorem sortFields_eq_of_perm {d1 d2 : List (String × JVal)}
    (hnd : (d1.map Prod.fst).Nodup) (hperm : d1.Perm d2) :
    List.insertionSort pairLE (serFields d1) = List.insertionSort pairLE (serFields d2) := by
  have e1 := serFields_eq_map d1
  have e2 := serFields_eq_map d2
  have hcomp : (Prod.fst ∘ fun p : String × JVal =>
      (p.1, qstr p.1 ++ (':' :: ' ' :: serJ p.2))) = Prod.fst := by
    funext p; rfl
  have hpm : (serFields d1).Perm (serFields d2) := by
    rw [e1, e2]; exact hperm.map _
  have hkeys1 : ((serFields d1).map Prod.fst).Nodup := by
    rw [e1, List.map_map, hcomp]; exact hnd
  have hkeys2 : ((serFields d2).map Prod.fst).Nodup := by
    rw [e2, List.map_map, hcomp]
    exact ((hperm.map Prod.fst).nodup_iff).mp hnd
  have hs1 := sorted_strict_of_sorted_nodup (List.sorted_insertionSort pairLE (serFields d1))
    (((List.perm_insertionSort pairLE (serFields d1)).map Prod.fst).nodup_iff.mpr hkeys1)
  have hs2 := sorted_strict_of_sorted_nodup (List.sorted_insertionSort pairLE (serFields d2))
    (((List.perm_insertionSort pairLE (serFields d2)).map Prod.fst).nodup_iff.mpr hkeys2)
  exact List.eq_of_perm_of_sorted
    ((List.perm_insertionSort pairLE (serFields d1)).trans
      (hpm.trans (List.perm_insertionSort pairLE (serFields d2)).symm)) hs1 hs2

/-- C8: the cache key is order-independent: two parameter dictionaries that
are equal as key-value maps (same pairs, possibly serialized in different
orders) hash to the same key, for any digest function over the normalized
serialization — so equivalent search requests collide on one cache entry. -/
theorem claim_c8_hash_order_independent (sha : String → String)
    (d1 d2 : List (String × JVal)) (hnd : (d1.map Prod.fst).Nodup)
    (hperm : d1.Perm d2) :
    hash_object sha (.jobj d1) = hash_object sha (.jobj d2) := by
  unfold hash_object json_dumps_sorted
  rw [serJ, serJ, sortFields_eq_of_perm hnd hperm]

/-- C8 witness at two re-orderings of one two-field dictionary. -/
theorem claim_c8_hash_order_independent_witness :
    ((([("b", JVal.jnum 1), ("a", JVal.jnum 2)]).map Prod.fst).Nodup ∧
     ([("b", JVal.jnum 1), ("a", JVal.jnum 2)] : List (String × JVal)).Perm
       [("a", JVal.jnum 2), ("b", JVal.jnum 1)]) ∧
    hash_object (fun s => s) (.jobj [("b", .jnum 1), ("a", .jnum 2)]) =
      hash_object (fun s => s) (.jobj [("a", .jnum 2), ("b", .jnum 1)]) :=
  ⟨⟨by decide, by decide⟩,
    claim_c8_hash_order_independent (fun s => s) _ _ (by decide) (by decide)⟩

/-! ## Sampler lemmas (for C1 and C7) -/

theorem joinWith_nil (sep : List Char) : joinWith sep [] = [] := rfl

theorem joinWith_single (sep p : List Char) : joinWith sep [p] = p := by
  simp [joinWith, List.intercalate]

theorem joinWith_cons (sep p q : List Char) (ps : List (List Char)) :
    joinWith sep (p :: q :: ps) = p ++ sep ++ joinWith sep (q :: ps) := by
  simp [joinWith, List.intercalate]

theorem splitNl_ne_nil : ∀ l : List Char, splitNl l ≠ []
  | [] => by simp [splitNl]
  | c :: rest => by
      rw [splitNl]
      cases h : splitNl rest with
      | nil => simp
      | cons s ss => by_cases hc : c = '\n' <;> simp [hc]

theorem splitNl_append (p : List Char) (hnp : '\n' ∉ p) :
    ∀ (l s : List Char) (ss : List (List Char)), splitNl l = s :: ss →
      splitNl (p ++ l) = (p ++ s) :: ss := by
  induction p with
  | nil => intro l s ss h; simpa using h
  | cons c p' ih =>
    intro l s ss h
    have hc : c ≠ '\n' := fun hcn => hnp (hcn ▸ List.mem_cons_self c p')
    have hp' : '\n' ∉ p' := fun hm => hnp (List.mem_cons_of_mem c hm)
    rw [List.cons_append, splitNl, ih hp' l s ss h]
    simp [hc]

theorem splitNl_cons_newline (l : List Char) : splitNl ('\n' :: l) = [] :: splitNl l := by
  rw [splitNl]
  cases h : splitNl l with
  | nil => exact absurd h (splitNl_ne_nil l)
  | cons s ss => simp

theorem splitNl_no_nl (p : List Char) (hnp : '\n' ∉ p) : splitNl p = [p] := by
  have h := splitNl_append p hnp [] [] [] rfl
  simpa using h

theorem splitNl_joinWith :
    ∀ parts : List (List Char), parts ≠ [] → (∀ q ∈ parts, '\n' ∉ q) →
      splitNl (joinWith ['\n'] parts) = parts
  | [], h, _ => absurd rfl h
  | [p], _, hq => by
      rw [joinWith_single]
      exact splitNl_no_nl p (hq p (by simp))
  | p :: q :: ps, _, hq => by
      rw [joinWith_cons]
      have hrest := splitNl_joinWith (q :: ps) (by simp)
        (fun x hx => hq x (List.mem_cons_of_mem _ hx))
      have h2 : splitNl ('\n' :: joinWith ['\n'] (q :: ps)) = [] :: q :: ps := by
        rw [splitNl_cons_newline, hrest]
      have h3 := splitNl_append p (hq p (by simp))
        ('\n' :: joinWith ['\n'] (q :: ps)) [] (q :: ps) h2
      simpa [List.append_assoc] using h3

theorem joinWith_replicate_step (sep part : List Char) (k : Nat) :
    joinWith sep (List.replicate (k + 2) part) =
      part ++ sep ++ joinWith sep (List.replicate (k + 1) part) := by
  conv_lhs => rw [List.replicate_succ, List.replicate_succ]
  rw [joinWith_cons, ← List.replicate_succ]

theorem joinWith_replicate_snoc (sep part : List Char) :
    ∀ k : Nat, joinWith sep (List.replicate (k + 2) part) =
      joinWith sep (List.replicate (k + 1) part) ++ sep ++ part
  | 0 => by
      rw [joinWith_replicate_step, List.replicate_one, joinWith_single]
  | k + 1 =>
      calc joinWith sep (List.replicate (k + 3) part)
          = part ++ sep ++ joinWith sep (List.replicate (k + 2) part) :=
            joinWith_replicate_step sep part (k + 1)
        _ = part ++ sep ++ (joinWith sep (List.replicate (k + 1) part) ++ sep ++ part) := by
            rw [joinWith_replicate_snoc sep part k]
        _ = (part ++ sep ++ joinWith sep (List.replicate (k + 1) part)) ++ sep ++ part := by
            simp [List.append_assoc]
        _ = joinWith sep (List.replicate (k + 2) part) ++ sep ++ part := by
            rw [← joinWith_replicate_step sep part k]

theorem joinWith_replicate_reverse (sep part : List Char)
    (hs : sep.reverse = sep) (hp : part.reverse = part) :
    ∀ k : Nat, (joinWith sep (List.replicate k part)).reverse =
      joinWith sep (List.replicate k part)
  | 0 => by simp [joinWith_nil]
  | 1 => by rw [List.replicate_one, joinWith_single, hp]
  | k + 2 => by
      rw [joinWith_replicate_step]
      simp only [List.reverse_append, hs, hp,
        joinWith_replicate_reverse sep part hs hp (k + 1)]
      have h2 := (joinWith_replicate_snoc sep part k).symm.trans
        (joinWith_replicate_step sep part k)
      simp only [List.append_assoc] at h2 ⊢
      exact h2

theorem joinWith_replicate_length (sep part : List Char) :
    ∀ k : Nat, (joinWith sep (List.replicate (k + 1) part)).length =
      (k + 1) * part.length + k * sep.length
  | 0 => by rw [List.replicate_one, joinWith_single]; ring
  | k + 1 => by
      rw [joinWith_replicate_step]
      simp [List.length_append, joinWith_replicate_length sep part k]
      ring

theorem dropWhile_cons_false {α : Type _} (p : α → Bool) (a : α) (l : List α)
    (h : p a = false) : (a :: l).dropWhile p = a :: l :=
  List.dropWhile_cons_of_neg (by simp [h])

theorem pyStrip_eq_self {l : List Char} (hrev : l.reverse = l)
    (hhead : ∀ c, l.head? = some c → isPyWs c = false) : pyStrip l = l := by
  have h1 : l.dropWhile isPyWs = l := by
    cases l with
    | nil => rfl
    | cons a m => exact dropWhile_cons_false _ a m (hhead a rfl)
  rw [pyStrip, h1, hrev, h1, hrev]

/-- Length of a packed string is the length of its character list. -/
theorem strLen_mk (l : List Char) : (String.mk l).length = l.length := rfl

/-- The 81-character output of the sampler when fewer than ten lines exist:
nine gap markers and nothing else. -/
def gapOnly : String := String.mk (joinWith gapMarker (List.replicate 10 []))

/-- Whenever the text is over budget but has fewer than ten lines,
`lines_per_seg = len(lines) // 10` is zero, every segment is empty, and the
sampler returns only the nine gap markers — all transcript content is lost. -/
theorem sample_gap_only (text : String) (mc : Nat) (h1 : mc < text.length)
    (h2 : (splitNl (pyStrip text.data)).length < 10) :
    _sample_transcript text mc = gapOnly := by
  have hlps : (splitNl (pyStrip text.data)).length / 10 = 0 := Nat.div_eq_of_lt h2
  simp only [_sample_transcript, gapOnly]
  rw [if_neg (Nat.not_le.mpr h1)]
  rw [hlps]
  congr 1
  congr 1
  have hconst : ∀ i ∈ List.range 10, (joinWith ['\n']
      (((splitNl (pyStrip text.data)).drop (i * 0)).take
        (min (i * 0 + 0) (splitNl (pyStrip text.data)).length - i * 0))) = [] := by
    intro i _
    simp [joinWith_nil]
  rw [List.map_congr_left hconst]
  simp

/-- A transcript that is one single 15001-character line. -/
def cexC7 : String := String.mk (List.replicate 15001 'a')

/-- C7: the claim fails at the default budget: `cexC7` is a non-empty
single-line input longer than 15000 characters, yet `_sample_transcript`
neither collapses to one segment per line nor keeps any input line — it
returns exactly the nine gap markers (81 characters, none of them from the
input). -/
theorem claim_c7_gap_markers_only :
    15000 < cexC7.length ∧
    _sample_transcript cexC7 = gapOnly ∧
    gapOnly.length = 81 ∧
    'a' ∉ gapOnly.data := by
  have hdata : cexC7.data = List.replicate 15001 'a' := rfl
  have hlen : cexC7.length = 15001 := by
    rw [cexC7, strLen_mk, List.length_replicate]
  refine ⟨by omega, ?_, by decide, by decide⟩
  apply sample_gap_only
  · omega
  · have hps : pyStrip cexC7.data = cexC7.data := by
      apply pyStrip_eq_self
      · rw [hdata, List.reverse_replicate]
      · intro c hc
        rw [hdata, List.head?_replicate, if_neg (by omega)] at hc
        cases hc
        decide
    have hnl : '\n' ∉ cexC7.data := by
      rw [hdata, List.mem_replicate]
      rintro ⟨-, h⟩
      exact absurd h (by decide)
    rw [hps, splitNl_no_nl _ hnl]
    simp

/-- One 1500-character transcript line. -/
def cexC1line : List Char := List.replicate 1500 'a'

/-- A 30019-character transcript of twenty 1500-character lines. -/
def cexC1 : String := String.mk (joinWith ['\n'] (List.replicate 20 cexC1line))

theorem cexC1_length : cexC1.length = 30019 := by
  rw [cexC1, strLen_mk]
  have h := joinWith_replicate_length ['\n'] cexC1line 19
  rw [show cexC1line.length = 1500 from by rw [cexC1line, List.length_replicate]] at h
  rw [show (19 : Nat) + 1 = 20 from rfl] at h
  rw [h]
  norm_num

theorem cexC1_strip : pyStrip cexC1.data = cexC1.data := by
  apply pyStrip_eq_self
  · exact joinWith_replicate_reverse ['\n'] cexC1line (by decide)
      (by rw [cexC1line, List.reverse_replicate]) 20
  · intro c hc
    have hshape : cexC1.data = cexC1line ++ ['\n'] ++ joinWith ['\n'] (List.replicate 19 cexC1line) := by
      show joinWith ['\n'] (List.replicate 20 cexC1line) = _
      exact joinWith_replicate_step ['\n'] cexC1line 18
    have hcons : List.replicate 1500 'a' = 'a' :: List.replicate 1499 'a' := by
      rw [show (1500 : Nat) = 1499 + 1 from rfl, List.replicate_succ]
    rw [hshape, cexC1line, hcons, List.cons_append, List.cons_append, List.head?_cons] at hc
    cases hc
    decide

theorem cexC1_split : splitNl cexC1.data = List.replicate 20 cexC1line := by
  show splitNl (joinWith ['\n'] (List.replicate 20 cexC1line)) = _
  apply splitNl_joinWith
  · simp
  · intro q hq
    rw [List.eq_of_mem_replicate hq, cexC1line, List.mem_replicate]
    rintro ⟨-, h⟩
    exact absurd h (by decide)

/-- C1: the budget is violated at the default `maxChars = 15000`: the
30019-character input `cexC1` exceeds the budget, yet the sampler's output
is 30091 characters long — the loop keeps all `10 * (len(lines) // 10)`
lines and adds nine 9-character gap markers, so nothing is sampled away. -/
theorem claim_c1_budget_violated :
    15000 < cexC1.length ∧ 15000 < (_sample_transcript cexC1).length := by
  have hlen := cexC1_length
  refine ⟨by omega, ?_⟩
  simp only [_sample_transcript]
  rw [if_neg (by omega)]
  rw [cexC1_strip, cexC1_split, List.length_replicate]
  rw [show (20 : Nat) / 10 = 2 from rfl]
  have hmap : (List.range 10).map (fun i => joinWith ['\n']
      (((List.replicate 20 cexC1line).drop (i * 2)).take (min (i * 2 + 2) 20 - i * 2)))
      = List.replicate 10 (joinWith ['\n'] (List.replicate 2 cexC1line)) := by
    have hconst : ∀ i ∈ List.range 10, (joinWith ['\n']
        (((List.replicate 20 cexC1line).drop (i * 2)).take (min (i * 2 + 2) 20 - i * 2)))
        = joinWith ['\n'] (List.replicate 2 cexC1line) := by
      intro i hi
      have hi10 := List.mem_range.mp hi
      rw [List.drop_replicate, List.take_replicate]
      congr 2
      omega
    rw [List.map_congr_left hconst]
    simp
  rw [hmap, strLen_mk]
  have hseg : (joinWith ['\n'] (List.replicate 2 cexC1line)).length = 3001 := by
    have h := joinWith_replicate_length ['\n'] cexC1line 1
    rw [show cexC1line.length = 1500 from by rw [cexC1line, List.length_replicate]] at h
    rw [show (1 : Nat) + 1 = 2 from rfl] at h
    rw [h]
    norm_num
  have h9 := joinWith_replicate_length gapMarker (joinWith ['\n'] (List.replicate 2 cexC1line)) 9
  rw [hseg, show gapMarker.length = 9 from rfl, show (9 : Nat) + 1 = 10 from rfl] at h9
  rw [h9]
  omega

/-! ## Claim C2 -/

/-- C2 counterexample: the brace scans are not string-aware.  The complete,
valid object `{"content": "use a \x7d here"}` (the spec's own example) is
cut at the `\x7d` inside the quoted value: the selected slice stops there
(a premature close), `json.loads` on the slice fails, so
`parse_analysis_result` raises and `try_parse_video_info` returns `None`
on a buffer whose complete `videoInfo` object holds a `\x7d` in a string;
dually, a `\x7b` inside a string makes the counter never return to zero
(a missed close). -/
theorem claim_c2_counterexample :
    (json_loads "\x7b\"content\": \"use a \x7d here\"\x7d").isSome = true ∧
    parse_analysis_result "\x7b\"content\": \"use a \x7d here\"\x7d" = .error "Expecting value" ∧
    braceSpan ("\x7b\"content\": \"use a \x7d here\"\x7d".data) = "\x7b\"content\": \"use a \x7d".data ∧
    try_parse_video_info "\x7b\"videoInfo\": \x7b\"title\": \"a \x7d b\"\x7d\x7d" = none ∧
    (json_loads "\x7b\"title\": \"a \x7d b\"\x7d").isSome = true ∧
    (json_loads "\x7b\"a\": \"x \x7b y\"\x7d").isSome = true ∧
    braceSpan ("\x7b\"a\": \"x \x7b y\"\x7d".data) = [] := by
  exact ⟨rfl, rfl, rfl, rfl, rfl, rfl, rfl⟩

theorem braceScan_depth_one (acc : List Char) :
    ∀ cs : List Char, '{' ∉ cs → '}' ∈ cs →
      braceScan 1 acc cs = acc ++ (cs.takeWhile (fun c => c ≠ '}') ++ ['}'])
  | [], _, hy => absurd hy (List.not_mem_nil _)
  | c :: rest, hn, hy => by
      rw [braceScan]
      have hc1 : ¬(c = '{') := fun h => hn (h ▸ List.mem_cons_self c rest)
      rw [if_neg hc1]
      by_cases hc2 : c = '}'
      · rw [if_pos hc2, if_pos (by norm_num)]
        subst hc2
        rw [List.takeWhile_cons_of_neg (by simp)]
        simp
      · rw [if_neg hc2]
        have hy' : '}' ∈ rest := by
          rcases List.mem_cons.mp hy with h | h
          · exact absurd h.symm hc2
          · exact h
        rw [braceScan_depth_one (acc ++ [c]) rest
          (fun h => hn (List.mem_cons_of_mem c h)) hy']
        rw [List.takeWhile_cons_of_pos (by simp [hc2])]
        simp [List.append_assoc]

/-- C2 (amended): the brace scans track no quoted-string state at all:
whenever the text after an opening `{` contains no further `{`, the scan
closes the span at the TEXTUALLY FIRST `}` — whether or not that `}` lies
inside a quoted string value — and when a `{` hides inside a string the
count is likewise perturbed (see the counterexample's missed close).  So a
brace inside a quoted text field does cause a premature or missed close. -/
theorem claim_c2_scan_string_unaware (cs : List Char) (hno : '{' ∉ cs)
    (hyes : '}' ∈ cs) :
    braceSpan ('{' :: cs) = '{' :: (cs.takeWhile (fun c => c ≠ '}') ++ ['}']) := by
  show braceScan 0 [] ('{' :: cs) = _
  rw [braceScan, if_pos rfl]
  exact braceScan_depth_one ['{'] cs hno hyes

/-- C2 witness: the scan over the spec's example closes inside the string. -/
theorem claim_c2_scan_string_unaware_witness :
    ('{' ∉ "\"content\": \"use a \x7d here\"\x7d".data ∧
     '}' ∈ "\"content\": \"use a \x7d here\"\x7d".data) ∧
    braceSpan ('{' :: "\"content\": \"use a \x7d here\"\x7d".data) =
      '{' :: ("\"content\": \"use a \x7d here\"\x7d".data.takeWhile (fun c => c ≠ '}') ++ ['}']) :=
  ⟨⟨by decide, by decide⟩,
    claim_c2_scan_string_unaware _ (by decide) (by decide)⟩

/-! ## Claim C3 -/

/-- A stream that ends (disconnects) right after the first section object:
the buffer holds a complete `videoInfo` object and one complete section
object, but the enclosing JSON document is never closed. -/
def cexC3buf : String :=
  "\x7b\"videoInfo\": \x7b\"title\": \"t\", \"videoId\": \"v\", \"description\": \"d\", \"thumbnail\": \"u\", \"summary\": \"s\"\x7d, \"sections\": [\x7b\"id\": \"section1\", \"title\": \"T\", \"content\": []\x7d"

/-- C3: the reconciliation-superset claim fails on the code: on the
truncated stream `cexC3buf` the incremental extractor emits the
`video_info` event and the section event for id `section1`, but the final
parse fails, the `[DONE]` document is the fallback skeleton, and its
section-id set is empty — so it is NOT a superset of the ids already
emitted. -/
theorem claim_c3_superset_violated :
    emittedSecIds (runStream [cexC3buf]).2 = [.jstr "section1"] ∧
    viCount (runStream [cexC3buf]).2 = 1 ∧
    final_video_data cexC3buf "fallback" "v" = fallback_video_data "fallback" "v" ∧
    docSecIds (final_video_data cexC3buf "fallback" "v") = [] := by
  set_option maxRecDepth 10000 in
  exact ⟨rfl, rfl, rfl, rfl⟩

/-! ## Claim C4 -/

/-- The ids carried by a list of emitted section objects. -/
def idsOf (l : List JVal) : List JVal := l.filterMap (fun s => jGet s "id")

theorem sectionsLoop_spec : ∀ (fuel : Nat) (cs : List Char) (seen acc : List JVal),
    ∃ em, sectionsLoop fuel cs seen acc = (acc ++ em, seen ++ idsOf em) ∧
      (idsOf em).Nodup ∧ ∀ i ∈ idsOf em, i ∉ seen := by
  intro fuel
  induction fuel with
  | zero =>
    intro cs seen acc
    exact ⟨[], by simp [sectionsLoop, idsOf], by simp [idsOf], by simp [idsOf]⟩
  | succ fuel ih =>
    intro cs seen acc
    cases hdw : cs.dropWhile isSkipC with
    | nil =>
      refine ⟨[], ?_, by simp [idsOf], by simp [idsOf]⟩
      rw [sectionsLoop, hdw]
      simp [idsOf]
    | cons c rest =>
      by_cases hc1 : c = ']'
      · refine ⟨[], ?_, by simp [idsOf], by simp [idsOf]⟩
        rw [sectionsLoop, hdw]
        simp only []
        rw [if_pos hc1]
        simp [idsOf]
      · by_cases hc2 : c = '{'
        · subst hc2
          by_cases hsp : braceSpan ('{' :: rest) = []
          · refine ⟨[], ?_, by simp [idsOf], by simp [idsOf]⟩
            rw [sectionsLoop, hdw]
            simp only []
            rw [if_neg hc1, if_neg (by simp), if_pos hsp]
            simp [idsOf]
          · cases hjl : json_loads_cs (braceSpan ('{' :: rest)) with
            | none =>
              obtain ⟨em, he, hn, hd⟩ :=
                ih (('{' :: rest).drop (braceSpan ('{' :: rest)).length) seen acc
              refine ⟨em, ?_, hn, hd⟩
              rw [sectionsLoop, hdw]
              simp only []
              rw [if_neg hc1, if_neg (by simp), if_neg hsp]
              simp only [hjl]
              exact he
            | some sec =>
              cases hjg : jGet sec "id" with
              | none =>
                obtain ⟨em, he, hn, hd⟩ :=
                  ih (('{' :: rest).drop (braceSpan ('{' :: rest)).length) seen acc
                refine ⟨em, ?_, hn, hd⟩
                rw [sectionsLoop, hdw]
                simp only []
                rw [if_neg hc1, if_neg (by simp), if_neg hsp]
                simp only [hjl, hjg]
                exact he
              | some idv =>
                have hids : ∀ em', idsOf (sec :: em') = idv :: idsOf em' := by
                  intro em'
                  simp [idsOf, hjg]
                by_cases hcond : pyTruthy idv ∧ idv ∉ seen
                · obtain ⟨em, he, hn, hd⟩ :=
                    ih (('{' :: rest).drop (braceSpan ('{' :: rest)).length)
                      (seen ++ [idv]) (acc ++ [sec])
                  refine ⟨sec :: em, ?_, ?_, ?_⟩
                  · rw [sectionsLoop, hdw]
                    simp only []
                    rw [if_neg hc1, if_neg (by simp), if_neg hsp]
                    simp only [hjl, hjg]
                    rw [if_pos hcond, he, hids em]
                    simp [List.append_assoc]
                  · rw [hids em]
                    refine List.Nodup.cons ?_ hn
                    intro hmem
                    exact (hd idv hmem) (List.mem_append.mpr (Or.inr (List.mem_cons_self _ _)))
                  · intro i hi
                    rw [hids em] at hi
                    rcases List.mem_cons.mp hi with rfl | hi'
                    · exact hcond.2
                    · exact fun hmem => (hd i hi') (List.mem_append.mpr (Or.inl hmem))
                · obtain ⟨em, he, hn, hd⟩ :=
                    ih (('{' :: rest).drop (braceSpan ('{' :: rest)).length) seen acc
                  refine ⟨em, ?_, hn, hd⟩
                  rw [sectionsLoop, hdw]
                  simp only []
                  rw [if_neg hc1, if_neg (by simp), if_neg hsp]
                  simp only [hjl, hjg]
                  rw [if_neg hcond]
                  exact he
        · obtain ⟨em, he, hn, hd⟩ := ih rest seen acc
          refine ⟨em, ?_, hn, hd⟩
          rw [sectionsLoop, hdw]
          simp only []
          rw [if_neg hc1, if_pos hc2]
          exact he

theorem try_parse_sections_spec (content : String) (seen : List JVal) :
    ∃ em, try_parse_sections content seen = (em, seen ++ idsOf em) ∧
      (idsOf em).Nodup ∧ ∀ i ∈ idsOf em, i ∉ seen := by
  cases hsk : searchKey ("\"sections\"".data) '[' false (vi_clean content) with
  | none =>
    refine ⟨[], ?_, by simp [idsOf], by simp [idsOf]⟩
    simp only [try_parse_sections, hsk]
    simp [idsOf]
  | some tail =>
    obtain ⟨em, he, hn, hd⟩ := sectionsLoop_spec (tail.length + 1) tail seen []
    refine ⟨em, ?_, hn, hd⟩
    simp only [try_parse_sections, hsk]
    simpa using he

/-- Potential: 1 while the `video_info` event is still allowed, 0 after. -/
def phi (b : Bool) : Nat := if b then 0 else 1

theorem emittedSecIds_append (a b : List Event) :
    emittedSecIds (a ++ b) = emittedSecIds a ++ emittedSecIds b := by
  simp [emittedSecIds]

theorem viCount_append (a b : List Event) :
    viCount (a ++ b) = viCount a + viCount b := by
  simp [viCount, List.filter_append]

theorem emittedSecIds_map_sec (em : List JVal) :
    emittedSecIds (em.map Event.sec) = idsOf em := by
  simp only [emittedSecIds, idsOf, List.filterMap_map]
  rfl

theorem viCount_map_sec (em : List JVal) : viCount (em.map Event.sec) = 0 := by
  simp only [viCount, List.filter_map, List.length_eq_zero]
  simp [List.filter_eq_nil_iff]

theorem streamStep_spec (st : GenState) (chunk : String) :
    (streamStep st chunk).1.seen = st.seen ++ emittedSecIds (streamStep st chunk).2 ∧
    (emittedSecIds (streamStep st chunk).2).Nodup ∧
    (∀ i ∈ emittedSecIds (streamStep st chunk).2, i ∉ st.seen) ∧
    viCount (streamStep st chunk).2 + phi (streamStep st chunk).1.viSent ≤ phi st.viSent := by
  by_cases hse : chunk = "\n[STREAM_END]"
  · rw [streamStep, if_pos hse]
    simp [emittedSecIds, viCount, phi]
  · obtain ⟨em, he, hn, hd⟩ := try_parse_sections_spec (st.full ++ chunk) st.seen
    by_cases hv : st.viSent
    · have hstep : streamStep st chunk =
          (⟨st.full ++ chunk, true, st.seen ++ idsOf em⟩, em.map Event.sec) := by
        rw [streamStep, if_neg hse]
        simp [he, hv]
      rw [hstep]
      refine ⟨by simp [emittedSecIds_map_sec], ?_, ?_, ?_⟩
      · rw [emittedSecIds_map_sec]; exact hn
      · rw [emittedSecIds_map_sec]; exact hd
      · rw [viCount_map_sec]
        simp [phi, hv]
    · cases htv : try_parse_video_info (st.full ++ chunk) with
      | none =>
        have hstep : streamStep st chunk =
            (⟨st.full ++ chunk, false, st.seen ++ idsOf em⟩, em.map Event.sec) := by
          rw [streamStep, if_neg hse]
          simp [he, hv, htv]
        rw [hstep]
        refine ⟨by simp [emittedSecIds_map_sec], ?_, ?_, ?_⟩
        · rw [emittedSecIds_map_sec]; exact hn
        · rw [emittedSecIds_map_sec]; exact hd
        · rw [viCount_map_sec]
          simp [phi, hv]
      | some v =>
        by_cases hpt : pyTruthy v
        · have hstep : streamStep st chunk =
              (⟨st.full ++ chunk, true, st.seen ++ idsOf em⟩,
                Event.vinfo v :: em.map Event.sec) := by
            rw [streamStep, if_neg hse]
            simp [he, hv, htv, hpt]
          rw [hstep]
          have hcons : (Event.vinfo v :: em.map Event.sec) =
              [Event.vinfo v] ++ em.map Event.sec := rfl
          refine ⟨?_, ?_, ?_, ?_⟩
          · rw [hcons, emittedSecIds_append, emittedSecIds_map_sec]
            simp [emittedSecIds]
          · rw [hcons, emittedSecIds_append, emittedSecIds_map_sec]
            simpa [emittedSecIds] using hn
          · rw [hcons, emittedSecIds_append, emittedSecIds_map_sec]
            simpa [emittedSecIds] using hd
          · rw [hcons, viCount_append, viCount_map_sec]
            simp [viCount, phi, hv]
        · have hstep : streamStep st chunk =
              (⟨st.full ++ chunk, false, st.seen ++ idsOf em⟩, em.map Event.sec) := by
            rw [streamStep, if_neg hse]
            simp [he, hv, htv, hpt]
          rw [hstep]
          refine ⟨by simp [emittedSecIds_map_sec], ?_, ?_, ?_⟩
          · rw [emittedSecIds_map_sec]; exact hn
          · rw [emittedSecIds_map_sec]; exact hd
          · rw [viCount_map_sec]
            simp [phi, hv]

theorem runStreamAux_spec : ∀ (chunks : List String) (st : GenState),
    (runStreamAux st chunks).1.seen = st.seen ++ emittedSecIds (runStreamAux st chunks).2 ∧
    (emittedSecIds (runStreamAux st chunks).2).Nodup ∧
    (∀ i ∈ emittedSecIds (runStreamAux st chunks).2, i ∉ st.seen) ∧
    viCount (runStreamAux st chunks).2 + phi (runStreamAux st chunks).1.viSent ≤ phi st.viSent
  | [], st => by simp [runStreamAux, emittedSecIds, viCount]
  | chunk :: cs, st => by
    obtain ⟨h1, h2, h3, h4⟩ := streamStep_spec st chunk
    obtain ⟨g1, g2, g3, g4⟩ := runStreamAux_spec cs (streamStep st chunk).1
    have hrun : runStreamAux st (chunk :: cs) =
        ((runStreamAux (streamStep st chunk).1 cs).1,
          (streamStep st chunk).2 ++ (runStreamAux (streamStep st chunk).1 cs).2) := by
      rw [runStreamAux]
    rw [hrun]
    simp only [emittedSecIds_append, viCount_append]
    refine ⟨?_, ?_, ?_, ?_⟩
    · rw [g1, h1]
      simp [List.append_assoc]
    · refine List.Nodup.append h2 g2 ?_
      intro a ha hb
      have := g3 a hb
      rw [h1] at this
      exact this (List.mem_append.mpr (Or.inr ha))
    · intro i hi
      rcases List.mem_append.mp hi with h | h
      · exact h3 i h
      · have := g3 i h
        rw [h1] at this
        exact fun hmem => this (List.mem_append.mpr (Or.inl hmem))
    · omega

/-- C4: across all calls of the incremental extractor on one stream's
growing buffer, each distinct object is emitted exactly once: at most one
`video_info` event is ever emitted; the section ids carried by the emitted
section events are pairwise distinct (a second object with an
already-emitted id is dropped); and the final `sent_section_ids` set equals
exactly the emitted ids — an object that failed to parse was never
recorded, so it stays eligible and is emitted on the later call where its
fragments have arrived. -/
theorem claim_c4_exactly_once (chunks : List String) :
    viCount (runStream chunks).2 ≤ 1 ∧
    (emittedSecIds (runStream chunks).2).Nodup ∧
    (runStream chunks).1.seen = emittedSecIds (runStream chunks).2 := by
  obtain ⟨h1, h2, _, h4⟩ := runStreamAux_spec chunks ⟨"", false, []⟩
  simp only [runStream]
  refine ⟨?_, h2, ?_⟩
  · have hphi : phi false = 1 := rfl
    rw [hphi] at h4
    omega
  · simpa using h1

end YTP
